import Mathlib

/-!
Verification of the chordr audio-processing backend (Python sources under
`processor/src`) against its natural-language specification.

The embedding is shallow: each Python function used by the claims is
translated into a Lean definition over explicit data.  Python floats are
modelled by `ℚ` (exact arithmetic) except where a value is genuinely
irrational (Pearson correlation involves square roots), where `ℝ` is used.
A float `NaN` that can reach a guard is modelled by `Option ℚ` with `none`
standing for `NaN`.  Python dicts keyed by strings are modelled by
`String → Option _` maps or by structures with the fields the code uses.
-/

/-! ### Job store (`services/task_manager.py`)

A job record keeps the fields the claims are about.  The Python code stores
arbitrary dicts; `status`, `updated_at` and `filepath` are the fields read or
written by `TaskManager` and `AudioProcessor.process_audio`. -/

structure Job where
  status : String
  updated_at : String
  filepath : String
deriving DecidableEq, Repr

/-- The in-memory `self.jobs` dict of `TaskManager`: a map from job id to
record.  Absence models a key not present in the dict. -/
def Store : Type := String → Option Job

/-- `TaskManager.create_job`: `self.jobs[job_id] = job_data` — an
unconditional insert-or-overwrite (the `_save_jobs` disk write has no effect
on the in-memory map). -/
def create_job (s : Store) (job_id : String) (job_data : Job) : Store :=
  fun k => if k = job_id then some job_data else s k

/-- `TaskManager.get_job`: `self.jobs.get(job_id)`. -/
def get_job (s : Store) (job_id : String) : Option Job :=
  s job_id

/-- `TaskManager.update_job_status`: if the id is present, set `status` and
`updated_at` (to `datetime.now().isoformat()`, passed here as `now`);
otherwise the map is left unchanged.  No validation of the transition is
performed and no exception is raised. -/
def update_job_status (s : Store) (job_id : String) (status now : String) : Store :=
  fun k =>
    if k = job_id then
      match s k with
      | some j => some { j with status := status, updated_at := now }
      | none => none
    else s k

/-! ### Orchestrator (`services/audio_processor.py`)

`AudioProcessor.process_audio` builds a `results` dict and returns it.  The
external effects (librosa load, result-file write) are supplied as an
environment; the fields of the returned dict that the claims mention are
`status` and `error`. -/

/-- Outcome of `librosa.load` plus the derived values the code reads:
the sample count `len(y)`, the duration and the sample rate. -/
structure LoadedAudio where
  len : Nat
  duration : ℚ
  sr : Nat
deriving DecidableEq, Repr

/-- External outcomes of one `process_audio` run: the audio load (an
exception message on failure) and the result-file write. -/
structure Env where
  load : Except String LoadedAudio
  save : Except String Unit

/-- The fields of the returned `results` dict that the claims concern. -/
structure Results where
  job_id : String
  status : String
  error : Option String
deriving DecidableEq, Repr

/-- Contiguous-sublist test on character lists. -/
def charsContain (pat : List Char) : List Char → Bool
  | [] => pat.isEmpty
  | c :: t => pat.isPrefixOf (c :: t) || charsContain pat t

/-- Substring test, modelling Python `"pat" in msg.lower()`
(the caller lowercases the message first). -/
def strContains (s pat : String) : Bool :=
  charsContain pat.data s.data

/-- The error classification of the outer `except` block of
`AudioProcessor.process_audio`. -/
def classify_error (msg : String) : String :=
  let m := msg.toLower
  if strContains m "ffmpeg" then
    "FFmpeg not found. Please install FFmpeg for audio format support. See FFMPEG_SETUP.md for installation instructions."
  else if strContains m "could not open" || strContains m "invalid" then
    "Invalid or corrupted audio file. Please ensure the file is a valid MP3 and not corrupted. Try with a different audio file."
  else if strContains m "format not supported" then
    "Audio format not supported. Please use MP3, WAV, or other common audio formats."
  else
    "Audio processing failed: " ++ msg

/-- `AudioProcessor.process_audio(job_id)`.  The function returns the
`results` dict; it never calls `TaskManager.create_job` or
`TaskManager.update_job_status`, so the store is passed through unchanged —
the pair makes that explicit.  Control flow:
* `get_job` returning `None` makes `job_data['filepath']` raise a
  `TypeError`, caught by the outer handler (the message carries none of the
  classified substrings, so the generic branch applies);
* a failure inside the inner `try` (librosa load, the emptiness check, the
  1-second minimum) is caught by the inner handler, which stores the raw
  message unclassified and returns;
* chord and lyric extraction catch their own exceptions internally and are
  total, so the remaining failure point is the result-file write, caught by
  the outer handler, which classifies the message. -/
def process_audio (env : Env) (s : Store) (job_id : String) : Results × Store :=
  match get_job s job_id with
  | none =>
      ({ job_id := job_id, status := "failed",
         error := some (classify_error "NoneType object is not subscriptable") }, s)
  | some _ =>
      match env.load with
      | .error msg =>
          ({ job_id := job_id, status := "failed", error := some msg }, s)
      | .ok a =>
          if a.len = 0 then
            ({ job_id := job_id, status := "failed",
               error := some "Audio file is empty or corrupted" }, s)
          else if a.duration < 1 then
            ({ job_id := job_id, status := "failed",
               error := some "Audio file is too short (Minimum 1 second)" }, s)
          else
            match env.save with
            | .error msg =>
                ({ job_id := job_id, status := "failed",
                   error := some (classify_error msg) }, s)
            | .ok _ =>
                ({ job_id := job_id, status := "completed", error := none }, s)

/-! Concrete fixtures for the job-store claims. -/

/-- The empty store. -/
def emptyStore : Store := fun _ => none

/-- A job parked in `processing`, as the `/process` route leaves it before
spawning the background run. -/
def jobProcessing : Job :=
  { status := "processing", updated_at := "t0", filepath := "up/a.mp3" }

/-- A store holding exactly the processing job `j1`. -/
def storeProcessing : Store := create_job emptyStore "j1" jobProcessing

/-- An environment in which every external step succeeds. -/
def envOk : Env :=
  { load := .ok { len := 44100, duration := 2, sr := 22050 }, save := .ok () }

/-! ### Theorems for C1 -/

/-- C1: `process_audio` never updates the job store: the store it returns is
the store it was given, and only the returned `results` dict carries a
terminal status (`completed` or `failed`). -/
theorem process_audio_leaves_store (env : Env) (s : Store) (job_id : String) :
    (process_audio env s job_id).2 = s ∧
      ((process_audio env s job_id).1.status = "completed" ∨
        (process_audio env s job_id).1.status = "failed") := by
  unfold process_audio
  rcases h : get_job s job_id with _ | j
  · exact ⟨rfl, Or.inr rfl⟩
  · rcases env.load with msg | a
    · exact ⟨rfl, Or.inr rfl⟩
    · by_cases h0 : a.len = 0
      · simp [h0]
      · by_cases h1 : a.duration < 1
        · simp [h0, h1]
        · rcases hs : env.save with msg | u <;> simp [h0, h1, hs]

/-- C1, failing run: a job whose record is in `processing` is still in
`processing` in the store after a fully successful `process_audio` run
returns — the run result says `completed`, but the store status is not
terminal, contradicting the claim that the job's status in the store is
always `Completed` or `Failed` after `run` returns. -/
theorem process_audio_stuck_processing :
    (process_audio envOk storeProcessing "j1").1.status = "completed" ∧
      ((process_audio envOk storeProcessing "j1").2 "j1") =
        some jobProcessing ∧
      jobProcessing.status = "processing" ∧
      jobProcessing.status ≠ "completed" ∧ jobProcessing.status ≠ "failed" := by
  refine ⟨rfl, ?_, rfl, by decide, by decide⟩
  have h := (process_audio_leaves_store envOk storeProcessing "j1").1
  rw [h]
  rfl

/-! ### Theorems for C2 -/

/-- A second record for `j1`, distinct from the existing one. -/
def jobOther : Job :=
  { status := "uploaded", updated_at := "t1", filepath := "up/b.mp3" }

/-- C2 counterexample: creating a job whose id already exists does not fail —
`create_job` silently overwrites the existing record.  With `j1` already
present (as `jobProcessing`), `create_job` with `jobOther` replaces it. -/
theorem create_job_overwrites :
    get_job storeProcessing "j1" = some jobProcessing ∧
      get_job (create_job storeProcessing "j1" jobOther) "j1" = some jobOther ∧
      jobOther ≠ jobProcessing := by
  refine ⟨rfl, rfl, by decide⟩

/-- C2 amended: `create_job` is an unconditional insert-or-overwrite.  After
`create_job s id d` the store maps `id` to `d` whether or not `id` was
present, every other key is untouched, and no failure path exists (the
function is total and raises no `DuplicateJobError`). -/
theorem create_job_upsert (s : Store) (job_id : String) (d : Job) :
    get_job (create_job s job_id d) job_id = some d ∧
      ∀ k, k ≠ job_id → get_job (create_job s job_id d) k = get_job s k := by
  constructor
  · simp [get_job, create_job]
  · intro k hk
    simp [get_job, create_job, hk]

/-- C2 amended, witness: the amended statement evaluated on the concrete
overwrite of `j1` and an unrelated key `j2`. -/
theorem create_job_upsert_witness :
    get_job (create_job storeProcessing "j1" jobOther) "j1" = some jobOther ∧
      get_job (create_job storeProcessing "j1" jobOther) "j2" =
        get_job storeProcessing "j2" :=
  ⟨(create_job_upsert storeProcessing "j1" jobOther).1,
    (create_job_upsert storeProcessing "j1" jobOther).2 "j2" (by decide)⟩

/-! ### Theorems for C3 -/

/-- A completed job record. -/
def jobCompleted : Job :=
  { status := "completed", updated_at := "t2", filepath := "up/a.mp3" }

/-- A store holding exactly the completed job `j1`. -/
def storeCompleted : Store := create_job emptyStore "j1" jobCompleted

/-- C3 counterexample: `update_job_status` validates nothing.  Transitioning
the completed job `j1` to `processing` — an edge outside the allowed set —
succeeds and changes the stored status, where the claim says it must fail
with `InvalidTransitionError` and leave the status unchanged. -/
theorem update_job_status_no_validation :
    get_job storeCompleted "j1" = some jobCompleted ∧
      jobCompleted.status = "completed" ∧
      (get_job (update_job_status storeCompleted "j1" "processing" "t3") "j1").map
          Job.status = some "processing" := by
  exact ⟨rfl, rfl, rfl⟩

/-- C3 amended: `update_job_status` performs no transition validation and
never raises.  For an id present in the store it unconditionally installs the
requested status together with the new `updated_at`; for a missing id the
store is unchanged; other keys are never touched. -/
theorem update_job_status_unconditional (s : Store) (job_id status now : String) :
    (∀ j, s job_id = some j →
        get_job (update_job_status s job_id status now) job_id =
          some { j with status := status, updated_at := now }) ∧
      (s job_id = none →
        update_job_status s job_id status now = s) ∧
      ∀ k, k ≠ job_id →
        get_job (update_job_status s job_id status now) k = get_job s k := by
  refine ⟨?_, ?_, ?_⟩
  · intro j hj
    simp [get_job, update_job_status, hj]
  · intro hnone
    funext k
    by_cases hk : k = job_id
    · subst hk
      simp [update_job_status, hnone]
    · simp [update_job_status, hk]
  · intro k hk
    simp [get_job, update_job_status, hk]

/-- C3 amended, witness: the amended statement evaluated on the completed job
`j1` (status overwritten to `processing`), on a store without `j9`, and on an
unrelated key. -/
theorem update_job_status_unconditional_witness :
    get_job (update_job_status storeCompleted "j1" "processing" "t3") "j1" =
        some { jobCompleted with status := "processing", updated_at := "t3" } ∧
      update_job_status emptyStore "j9" "failed" "t4" = emptyStore ∧
      get_job (update_job_status storeCompleted "j1" "processing" "t3") "j2" =
        get_job storeCompleted "j2" :=
  ⟨(update_job_status_unconditional storeCompleted "j1" "processing" "t3").1
      jobCompleted rfl,
    (update_job_status_unconditional emptyStore "j9" "failed" "t4").2.1 rfl,
    (update_job_status_unconditional storeCompleted "j1" "processing" "t3").2.2
      "j2" (by decide)⟩

/-! ### Chord progression smoothing (`services/chord_detector.py`)

`_smooth_chord_progression` works on the list of per-segment dicts
`{time, chord, confidence}` produced by `_detect_chord_progression`. -/

/-- One entry of a chord progression. -/
structure ChordEntry where
  time : ℚ
  chord : String
  confidence : ℚ
deriving DecidableEq, Repr

/-- The loop body of `_smooth_chord_progression` for indices `1 ≤ i`:
`prev` is the last retained entry (`smoothed[-1]`); a singleton argument is
the final index `i == len(progression) - 1`, appended unconditionally. -/
def smoothAux (min_duration : ℚ) (prev : ChordEntry) :
    List ChordEntry → List ChordEntry
  | [] => []
  | [c] => [c]
  | c :: c' :: rest =>
      if c.chord ≠ prev.chord ∧ min_duration ≤ c.time - prev.time then
        c :: smoothAux min_duration c (c' :: rest)
      else
        smoothAux min_duration prev (c' :: rest)

/-- `ChordDetector._smooth_chord_progression(progression, min_duration=1.0)`:
a progression of length at most 1 is returned as is; otherwise the first
entry is retained and the loop keeps an entry iff its chord differs from the
last retained entry and at least `min_duration` elapsed since it — except the
final entry, which is always appended. -/
def smooth_chord_progression (min_duration : ℚ) :
    List ChordEntry → List ChordEntry
  | [] => []
  | [p] => [p]
  | p :: q :: rest => p :: smoothAux min_duration p (q :: rest)

/-- The shape of a smoothed tail: every entry except a final one satisfies
the retention condition with respect to its predecessor. -/
def chainCond (min_duration : ℚ) (prev : ChordEntry) : List ChordEntry → Prop
  | [] => True
  | [_] => True
  | c :: c' :: rest =>
      (c.chord ≠ prev.chord ∧ min_duration ≤ c.time - prev.time) ∧
        chainCond min_duration c (c' :: rest)

/-- Every tail produced by the smoothing loop satisfies `chainCond`. -/
theorem chainCond_smoothAux (d : ℚ) :
    ∀ (prev : ChordEntry) (l : List ChordEntry),
      chainCond d prev (smoothAux d prev l)
  | _, [] => trivial
  | _, [_] => trivial
  | prev, c :: c' :: rest => by
      by_cases h : c.chord ≠ prev.chord ∧ d ≤ c.time - prev.time
      · rw [smoothAux, if_pos h]
        have ih := chainCond_smoothAux d c (c' :: rest)
        rcases hs : smoothAux d c (c' :: rest) with _ | ⟨y, t⟩
        · exact trivial
        · rw [hs] at ih
          exact ⟨h, ih⟩
      · rw [smoothAux, if_neg h]
        exact chainCond_smoothAux d prev (c' :: rest)

/-- A tail satisfying `chainCond` passes through the smoothing loop
unchanged. -/
theorem smoothAux_of_chainCond (d : ℚ) :
    ∀ (prev : ChordEntry) (l : List ChordEntry),
      chainCond d prev l → smoothAux d prev l = l
  | _, [], _ => rfl
  | _, [_], _ => rfl
  | prev, c :: c' :: rest, h => by
      rw [smoothAux, if_pos h.1, smoothAux_of_chainCond d c (c' :: rest) h.2]

/-- C7: smoothing is idempotent — smoothing an already-smoothed progression
returns it unchanged, for every minimum duration and every input. -/
theorem smooth_chord_progression_idempotent (d : ℚ) (l : List ChordEntry) :
    smooth_chord_progression d (smooth_chord_progression d l) =
      smooth_chord_progression d l := by
  match l with
  | [] => rfl
  | [p] => rfl
  | p :: q :: rest =>
      rw [smooth_chord_progression]
      have hchain := chainCond_smoothAux d p (q :: rest)
      rcases hs : smoothAux d p (q :: rest) with _ | ⟨x, t⟩
      · rfl
      · rw [hs] at hchain
        rw [smooth_chord_progression, smoothAux_of_chainCond d p (x :: t) hchain]

/-- The final element of the loop's input is always in its output. -/
theorem smoothAux_last_mem (d : ℚ) :
    ∀ (prev : ChordEntry) (l : List ChordEntry) (h : l ≠ []),
      l.getLast h ∈ smoothAux d prev l
  | _, [c], _ => by simp [smoothAux]
  | prev, c :: c' :: rest, _ => by
      rw [List.getLast_cons (List.cons_ne_nil c' rest), smoothAux]
      by_cases h : c.chord ≠ prev.chord ∧ d ≤ c.time - prev.time
      · rw [if_pos h]
        exact List.mem_cons_of_mem c
          (smoothAux_last_mem d c (c' :: rest) (List.cons_ne_nil c' rest))
      · rw [if_neg h]
        exact smoothAux_last_mem d prev (c' :: rest) (List.cons_ne_nil c' rest)

/-- C8: the last element of any nonempty progression is present in the
smoothed output, and a progression of length 1 is returned unchanged. -/
theorem smooth_chord_progression_last (d : ℚ) (l : List ChordEntry)
    (h : l ≠ []) :
    l.getLast h ∈ smooth_chord_progression d l ∧
      ∀ p : ChordEntry, smooth_chord_progression d [p] = [p] := by
  refine ⟨?_, fun _ => rfl⟩
  match l with
  | [p] => simp [smooth_chord_progression]
  | p :: q :: rest =>
      rw [smooth_chord_progression,
        List.getLast_cons (List.cons_ne_nil q rest)]
      exact List.mem_cons_of_mem p
        (smoothAux_last_mem d p (q :: rest) (List.cons_ne_nil q rest))

/-- A small concrete progression: the middle entry is dropped (same-chord
repeat), the final entry is retained by the always-keep-last rule. -/
def demoProgression : List ChordEntry :=
  [⟨0, "C", 9/10⟩, ⟨2, "C", 8/10⟩, ⟨4, "G", 7/10⟩]

/-- C8 witness: the last entry of the demo progression survives smoothing,
and singletons are unchanged. -/
theorem smooth_chord_progression_last_witness :
    (⟨4, "G", 7/10⟩ : ChordEntry) ∈ smooth_chord_progression 1 demoProgression ∧
      smooth_chord_progression 1 [(⟨0, "C", 9/10⟩ : ChordEntry)] =
        [⟨0, "C", 9/10⟩] := by
  have h := smooth_chord_progression_last 1 demoProgression (by decide)
  exact ⟨h.1, h.2 ⟨0, "C", 9/10⟩⟩

/-! ### Lyric post-processing (`services/lyric_extractor.py`)

Raw Whisper output segments carry start/end times, text and optionally
word-level data; a missing `probability` key is modelled by `none` (the code
reads it with `word.get('probability', 0.5)`).  `end` is a Lean keyword, so
the field is called `stop`. -/

/-- One raw word of a transcriber segment. -/
structure RawWord where
  word : String
  start : ℚ
  stop : ℚ
  probability : Option ℚ
deriving DecidableEq, Repr

/-- One raw transcriber segment; `words = none` models a segment dict
without the `'words'` key. -/
structure RawSegment where
  start : ℚ
  stop : ℚ
  text : String
  words : Option (List RawWord)
deriving DecidableEq, Repr

/-- One formatted word emitted by `_format_segments`. -/
structure FormattedWord where
  word : String
  start : ℚ
  stop : ℚ
  confidence : ℚ
deriving DecidableEq, Repr

/-- One formatted segment emitted by `_format_segments`. -/
structure FormattedSegment where
  start : ℚ
  stop : ℚ
  text : String
  confidence : ℚ
  words : Option (List FormattedWord)
deriving DecidableEq, Repr

/-- Python `str.strip()`: remove leading and trailing whitespace. -/
def pyStrip (s : String) : String :=
  ⟨List.rdropWhile (fun c => c.isWhitespace)
    (s.data.dropWhile (fun c => c.isWhitespace))⟩

/-- Python `round(x)` (banker's rounding: ties go to the even integer). -/
def pyRoundInt (x : ℚ) : ℤ :=
  let f := ⌊x⌋
  let r := x - f
  if r < 1/2 then f
  else if 1/2 < r then f + 1
  else if f % 2 = 0 then f else f + 1

/-- Python `round(x, 2)`. -/
def pyRound2 (x : ℚ) : ℚ :=
  (pyRoundInt (x * 100) : ℚ) / 100

/-- `LyricExtractor._get_segment_confidence`: the unweighted mean of the
word probabilities when word-level data exists (each probability defaulting
to `0.5`, and an empty word list giving `0.5`), else the fixed `0.7`. -/
def get_segment_confidence (s : RawSegment) : ℚ :=
  match s.words with
  | some ws =>
      if ws = [] then 1/2
      else (ws.map (fun w => w.probability.getD (1/2))).sum / ws.length
  | none => 7/10

/-- The word filter of `_format_segments`: keep a word iff its probability
(default `0.5`) exceeds `0.1` and its stripped text is nonempty. -/
def filtered_words (ws : List RawWord) : List RawWord :=
  ws.filter (fun w =>
    decide ((1 : ℚ)/10 < w.probability.getD (1/2)) &&
      decide (pyStrip w.word ≠ ""))

/-- Formatting of one retained word. -/
def format_word (w : RawWord) : FormattedWord :=
  { word := pyStrip w.word, start := pyRound2 w.start, stop := pyRound2 w.stop,
    confidence := w.probability.getD (1/2) }

/-- The loop body of `_format_segments` for one raw segment: `none` when the
segment is dropped (confidence at most `0.2`, or word-level data present but
no word surviving the filter), `some` of the formatted segment otherwise. -/
def format_one (s : RawSegment) : Option FormattedSegment :=
  let conf := get_segment_confidence s
  if 1/5 < conf then
    match s.words with
    | some ws =>
        let hws := filtered_words ws
        if hws = [] then none
        else
          some { start := pyRound2 s.start, stop := pyRound2 s.stop,
                 text := pyStrip s.text, confidence := conf,
                 words := some (hws.map format_word) }
    | none =>
        some { start := pyRound2 s.start, stop := pyRound2 s.stop,
               text := pyStrip s.text, confidence := conf,
               words := none }
  else none

/-- `LyricExtractor._format_segments`: the loop appending each retained
formatted segment in order. -/
def format_segments (segs : List RawSegment) : List FormattedSegment :=
  segs.filterMap format_one

/-- `LyricExtractor._calculate_average_confidence`: loop over the **raw**
segments accumulating `confidence * duration` and `duration`; `0.0` for an
empty list or a nonpositive total duration. -/
def calculate_average_confidence (segs : List RawSegment) : ℚ :=
  if segs = [] then 0
  else
    let p := segs.foldl
      (fun (acc : ℚ × ℚ) s =>
        (acc.1 + get_segment_confidence s * (s.stop - s.start),
          acc.2 + (s.stop - s.start)))
      (0, 0)
    if 0 < p.2 then p.1 / p.2 else 0

/-- `LyricExtractor._get_total_duration`: the `end` of the last **raw**
segment, `0.0` for an empty list. -/
def get_total_duration (segs : List RawSegment) : ℚ :=
  match segs.getLast? with
  | none => 0
  | some s => s.stop

/-! Spec-side definitions for C4 (refinement comparison).  `spec_confidence`
and `spec_duration` follow the spec's words: the duration-weighted mean of
the confidences of the *surviving* segments (those emitted by
`_format_segments`) and the end timestamp of the last *surviving* segment. -/

/-- Modelled from the spec: duration-weighted mean confidence over the
surviving (filtered) segments. -/
def spec_confidence (segs : List RawSegment) : ℚ :=
  let fs := format_segments segs
  let td := (fs.map (fun f => f.stop - f.start)).sum
  if 0 < td then (fs.map (fun f => f.confidence * (f.stop - f.start))).sum / td
  else 0

/-- Modelled from the spec: end timestamp of the last surviving segment. -/
def spec_duration (segs : List RawSegment) : ℚ :=
  match (format_segments segs).getLast? with
  | none => 0
  | some f => f.stop

/-- Amended C4 reference values computed over the raw list by independent
map-and-sum expressions. -/
def raw_weighted_confidence (segs : List RawSegment) : ℚ :=
  if segs = [] then 0
  else
    let td := (segs.map (fun s => s.stop - s.start)).sum
    if 0 < td then
      (segs.map (fun s => get_segment_confidence s * (s.stop - s.start))).sum / td
    else 0

/-- Amended C4 reference value: the end timestamp of the last raw segment. -/
def raw_total_duration (segs : List RawSegment) : ℚ :=
  ((segs.map RawSegment.stop).getLast?).getD 0

/-- Two raw segments: the first has no word data (confidence `0.7`), the
second carries one low-probability word, giving segment confidence `0.1`,
below the `0.2` threshold — so it is filtered out of the formatted output. -/
def demoRawSegs : List RawSegment :=
  [{ start := 0, stop := 1, text := "hello", words := none },
   { start := 1, stop := 3, text := "xx",
     words := some [{ word := "xx", start := 1, stop := 2,
                      probability := some (1/10) }] }]

/-- C4 counterexample: on `demoRawSegs` the code's aggregate confidence is
the duration-weighted mean over the **raw** segments (`0.3`), not over the
surviving segments (`0.7`), and the code's total duration is the end of the
last **raw** segment (`3`), not of the last surviving segment (`1`). -/
theorem lyrics_aggregate_uses_raw_segments :
    calculate_average_confidence demoRawSegs = 3/10 ∧
      spec_confidence demoRawSegs = 7/10 ∧
      get_total_duration demoRawSegs = 3 ∧
      spec_duration demoRawSegs = 1 ∧
      (3/10 : ℚ) ≠ 7/10 ∧ (3 : ℚ) ≠ 1 := by
  have hf1 : format_one { start := 0, stop := 1, text := "hello", words := none } =
      some { start := 0, stop := 1, text := "hello", confidence := 7/10,
             words := none } := by
    rw [format_one]
    norm_num [get_segment_confidence, pyRound2, pyRoundInt, pyStrip]
    decide
  have hf2 : format_one { start := 1, stop := 3, text := "xx",
                          words := some [⟨"xx", 1, 2, some (1/10)⟩] } = none := by
    rw [format_one]
    norm_num [get_segment_confidence]
  have hfs : format_segments demoRawSegs =
      [{ start := 0, stop := 1, text := "hello", confidence := 7/10,
         words := none }] := by
    simp only [format_segments, demoRawSegs, List.filterMap_cons,
      List.filterMap_nil, hf1, hf2]
  refine ⟨?_, ?_, ?_, ?_, by norm_num, by norm_num⟩
  · norm_num [calculate_average_confidence, demoRawSegs, get_segment_confidence]
    exact List.cons_ne_nil _ _
  · norm_num [spec_confidence, hfs]
  · norm_num [get_total_duration, demoRawSegs]
  · norm_num [spec_duration, hfs]

/-- Accumulating pair fold of `_calculate_average_confidence` equals the two
map-sums. -/
theorem confidence_foldl_eq_sums (segs : List RawSegment) (a b : ℚ) :
    segs.foldl
        (fun (acc : ℚ × ℚ) s =>
          (acc.1 + get_segment_confidence s * (s.stop - s.start),
            acc.2 + (s.stop - s.start)))
        (a, b) =
      (a + (segs.map (fun s => get_segment_confidence s * (s.stop - s.start))).sum,
        b + (segs.map (fun s => s.stop - s.start)).sum) := by
  induction segs generalizing a b with
  | nil => simp
  | cons s rest ih =>
      simp only [List.foldl_cons, List.map_cons, List.sum_cons, ih]
      rw [Prod.mk.injEq]
      constructor <;> ring

/-- C4 amended: the aggregate confidence returned by lyric extraction is the
duration-weighted mean of the confidences of **all raw** segments (with `0`
for an empty list or nonpositive total duration), and the reported total
duration is the end timestamp of the last **raw** segment (`0` if none) —
the confidence filters play no part in either value. -/
theorem lyrics_aggregate_raw (segs : List RawSegment) :
    calculate_average_confidence segs = raw_weighted_confidence segs ∧
      get_total_duration segs = raw_total_duration segs := by
  constructor
  · unfold calculate_average_confidence raw_weighted_confidence
    by_cases h : segs = []
    · simp [h]
    · rw [if_neg h, if_neg h, confidence_foldl_eq_sums]
      simp
  · unfold get_total_duration raw_total_duration
    induction segs with
    | nil => rfl
    | cons s rest ih =>
        cases rest with
        | nil => rfl
        | cons t u =>
            simpa [List.getLast?_cons_cons] using ih

/-! ### Theorems for C9 -/

/-- A stripped nonempty string is not whitespace-only: stripping again
removes nothing, while stripping a whitespace-only string leaves nothing. -/
theorem pyStrip_not_all_whitespace (s : String) (h : pyStrip s ≠ "") :
    ¬((pyStrip s).data.all Char.isWhitespace = true) := by
  intro hall
  have hne : (pyStrip s).data ≠ [] := by
    intro hd
    exact h (congrArg String.mk hd)
  have h1 : List.rdropWhile (fun c => c.isWhitespace) (pyStrip s).data = [] :=
    List.rdropWhile_eq_nil_iff.mpr (fun x hx => List.all_eq_true.mp hall x hx)
  have h2 : List.rdropWhile (fun c => c.isWhitespace) (pyStrip s).data =
      (pyStrip s).data :=
    List.rdropWhile_idempotent _ _
  exact hne (h2.symm.trans h1)

/-- C9: the formatted transcript never carries a segment with confidence at
most `0.2`; an emitted segment that carries word-level data has at least one
word, and every emitted word has confidence above `0.1` and a nonempty text
that is not whitespace-only.  Moreover a raw segment carrying word-level data
whose words are all filtered out is dropped entirely. -/
theorem format_segments_thresholds (segs : List RawSegment) :
    (∀ fs ∈ format_segments segs, 1/5 < fs.confidence ∧
      ∀ ws, fs.words = some ws → ws ≠ [] ∧
        ∀ w ∈ ws, 1/10 < w.confidence ∧ w.word ≠ "" ∧
          ¬(w.word.data.all Char.isWhitespace = true)) ∧
    (∀ s : RawSegment, ∀ rws, s.words = some rws → filtered_words rws = [] →
      format_segments (s :: segs) = format_segments segs) := by
  constructor
  · intro fs hfs
    obtain ⟨s, -, hone⟩ := List.mem_filterMap.mp hfs
    obtain ⟨sa, sb, st, sw⟩ := s
    rcases sw with - | ws
    · simp only [format_one] at hone
      by_cases hc : (1 : ℚ)/5 <
          get_segment_confidence ⟨sa, sb, st, none⟩
      · rw [if_pos hc] at hone
        obtain rfl := Option.some_injective _ hone
        refine ⟨hc, ?_⟩
        intro ws h
        exact absurd h (by simp)
      · rw [if_neg hc] at hone
        exact absurd hone (by simp)
    · simp only [format_one] at hone
      by_cases hc : (1 : ℚ)/5 <
          get_segment_confidence ⟨sa, sb, st, some ws⟩
      · rw [if_pos hc] at hone
        by_cases hf : filtered_words ws = []
        · rw [if_pos hf] at hone
          exact absurd hone (by simp)
        · rw [if_neg hf] at hone
          obtain rfl := Option.some_injective _ hone
          refine ⟨hc, ?_⟩
          intro ws' hws'
          obtain rfl := Option.some_injective _ hws'
          constructor
          · simpa using hf
          · intro w hw'
            obtain ⟨w₀, hw₀, rfl⟩ := List.mem_map.mp hw'
            have hmem := List.mem_filter.mp hw₀
            have hcond := hmem.2
            rw [Bool.and_eq_true, decide_eq_true_eq, decide_eq_true_eq] at hcond
            refine ⟨hcond.1, hcond.2, ?_⟩
            exact pyStrip_not_all_whitespace w₀.word hcond.2
      · rw [if_neg hc] at hone
        exact absurd hone (by simp)
  · intro s rws hw hf
    have hone : format_one s = none := by
      rw [format_one, hw]
      by_cases hc : (1 : ℚ)/5 < get_segment_confidence s
      · rw [if_pos hc]
        simp [hf]
      · rw [if_neg hc]
    rw [format_segments, format_segments, List.filterMap_cons, hone]

/-- A raw segment whose single word survives both filters. -/
def keptRawSeg : RawSegment :=
  ⟨0, 1, "la", some [⟨"la", 0, 1, some (3/4)⟩]⟩

/-- The formatted segment produced from `keptRawSeg`. -/
def keptFmtSeg : FormattedSegment :=
  ⟨0, 1, "la", 3/4, some [⟨"la", 0, 1, 3/4⟩]⟩

/-- A raw segment with word-level data whose only word is whitespace and is
filtered out, so the whole segment is dropped. -/
def droppedRawSeg : RawSegment :=
  ⟨0, 1, "x", some [⟨" ", 0, 1, some (3/4)⟩]⟩

/-- C9 witness: the theorem applied to the concrete segments — the surviving
segment's emitted confidence `3/4` exceeds `0.2`, its emitted word has
confidence `3/4` above `0.1` with nonempty non-whitespace text, and the
segment whose only word is whitespace is dropped entirely. -/
theorem format_segments_thresholds_witness :
    ((1 : ℚ)/5 < keptFmtSeg.confidence ∧ (1 : ℚ)/10 < 3/4 ∧
      ("la" : String) ≠ "" ∧
      ¬(("la" : String).data.all Char.isWhitespace = true)) ∧
      format_segments [droppedRawSeg] = format_segments [] := by
  have hfw : filtered_words [⟨"la", 0, 1, some (3/4)⟩] =
      [⟨"la", 0, 1, some (3/4)⟩] := by
    rw [filtered_words, List.filter_cons, if_pos, List.filter_nil]
    rw [Bool.and_eq_true, decide_eq_true_eq, decide_eq_true_eq]
    exact ⟨by norm_num, by decide⟩
  have hone : format_one keptRawSeg = some keptFmtSeg := by
    rw [keptRawSeg, keptFmtSeg]
    simp only [format_one, get_segment_confidence, hfw]
    rw [if_pos (by norm_num), if_neg (by simp)]
    simp only [List.map_cons, List.map_nil, format_word]
    norm_num [pyRound2, pyRoundInt]
    decide
  have hmem : keptFmtSeg ∈ format_segments [keptRawSeg] := by
    rw [format_segments, List.filterMap_cons, hone]
    exact List.mem_cons_self _ _
  have h := (format_segments_thresholds [keptRawSeg]).1 _ hmem
  have hws : keptFmtSeg.words = some [⟨"la", 0, 1, 3/4⟩] := rfl
  have hword := (h.2 _ hws).2 ⟨"la", 0, 1, 3/4⟩ (List.mem_singleton.mpr rfl)
  refine ⟨⟨h.1, hword.1, hword.2.1, hword.2.2⟩, ?_⟩
  refine (format_segments_thresholds []).2 droppedRawSeg
    [⟨" ", 0, 1, some (3/4)⟩] rfl ?_
  rw [filtered_words, List.filter_cons, if_neg, List.filter_nil]
  rw [Bool.and_eq_true]
  intro hcontra
  have hst := hcontra.2
  rw [decide_eq_true_eq] at hst
  exact hst (by decide)

/-! ### Chord and key detection (`services/chord_detector.py`)

A chroma vector is a 12-component float vector; since `NaN` can reach the
guards, a component is `Option ℚ` with `none` for `NaN`.  A chromagram is
the list of its per-frame columns (the code averages over `axis=1`).

`np.corrcoef(x, t)[0, 1]` is the Pearson correlation
`cov(x,t) / (σ(x) * σ(t))`; multiplying numerator and denominator by `144`
it equals `corrNum x t / (sqrt (var12 x) * sqrt (var12 t))` with
`corrNum x y = 12 * Σ x*y - Σx * Σy` and `var12 x = corrNum x x`.  It is
`NaN` exactly when one vector has zero variance, modelled by `none`. -/

/-- Float addition with `NaN` propagation. -/
def oadd : Option ℚ → Option ℚ → Option ℚ
  | some a, some b => some (a + b)
  | _, _ => none

/-- `np.sum` over a 12-vector with `NaN` propagation. -/
def osum (x : Fin 12 → Option ℚ) : Option ℚ :=
  (List.ofFn x).foldr oadd (some 0)

/-- `np.any(np.isnan(x))`. -/
def hasNaN (x : Fin 12 → Option ℚ) : Bool :=
  (List.ofFn x).any (fun o => o.isNone)

/-- `np.sum` over a `NaN`-free 12-vector. -/
def vsum (x : Fin 12 → ℚ) : ℚ := ∑ i, x i

/-- `144 * cov(x, y)`: the numerator of the Pearson correlation. -/
def corrNum (x y : Fin 12 → ℚ) : ℚ :=
  12 * (∑ i, x i * y i) - vsum x * vsum y

/-- `144 * var(x)`. -/
def var12 (x : Fin 12 → ℚ) : ℚ := corrNum x x

/-- `np.corrcoef(x, y)[0, 1]`: `none` models the `NaN` produced when either
vector has zero variance. -/
noncomputable def corrcoef (x y : Fin 12 → ℚ) : Option ℝ :=
  if var12 x = 0 ∨ var12 y = 0 then none
  else some ((corrNum x y : ℝ) / (Real.sqrt (var12 x) * Real.sqrt (var12 y)))

/-- The twelve note names (the `note_names` list shared by `_estimate_key`
and `_get_chord_name`), as the lookup function the list indexing performs. -/
def noteName : Fin 12 → String := fun i =>
  match i with
  | ⟨0, _⟩ => "C"
  | ⟨1, _⟩ => "C#"
  | ⟨2, _⟩ => "D"
  | ⟨3, _⟩ => "D#"
  | ⟨4, _⟩ => "E"
  | ⟨5, _⟩ => "F"
  | ⟨6, _⟩ => "F#"
  | ⟨7, _⟩ => "G"
  | ⟨8, _⟩ => "G#"
  | ⟨9, _⟩ => "A"
  | ⟨10, _⟩ => "A#"
  | ⟨11, _⟩ => "B"
  | ⟨n + 12, h⟩ => absurd h (by omega)

/-- The interval list of `_create_chord_templates` for a quality: root,
third, fifth. -/
def chordIntervals (quality : String) : List (Fin 12) :=
  if quality = "minor" then [0, 3, 7] else [0, 4, 7]

/-- A chord template as the integer 0/1 mask set at `(root + interval) % 12`
(`Fin 12` addition is mod-12 addition). -/
def maskZ (root : Fin 12) (quality : String) : Fin 12 → ℤ :=
  fun i => if i ∈ (chordIntervals quality).map (fun v => root + v) then 1 else 0

/-- Cast an integer mask to the float (here `ℚ`) vector numpy stores. -/
def castVec (x : Fin 12 → ℤ) : Fin 12 → ℚ := fun i => (x i : ℚ)

/-- The dict keys of `_create_chord_templates` (`f'{root}_major'`,
`f'{root}_minor'`) in Python-dict insertion order, kept as structured
root/quality pairs instead of strings. -/
def templateKeys : List (Fin 12 × String) :=
  (List.finRange 12).flatMap (fun r => [(r, "major"), (r, "minor")])

/-- `self.chord_templates` as the ordered key/vector association the
matching loop iterates over. -/
def chord_templates : List ((Fin 12 × String) × (Fin 12 → ℚ)) :=
  templateKeys.map (fun k => (k, castVec (maskZ k.1 k.2)))

/-- `ChordDetector._get_chord_name`. -/
def get_chord_name (root : Fin 12) (chord_type : String) : String :=
  noteName root ++ (if chord_type = "minor" then "m" else "")

/-- The loop body of `_match_chord_template`: the correlation against one
template (an invalid correlation replaced by `0`), taking the template when
it strictly beats the best so far. -/
noncomputable def matchStep (v : Fin 12 → ℚ) (acc : String × ℝ)
    (t : (Fin 12 × String) × (Fin 12 → ℚ)) : String × ℝ :=
  if acc.2 < (corrcoef v t.2).getD 0 then
    (get_chord_name t.1.1 t.1.2, (corrcoef v t.2).getD 0)
  else acc

/-- The template loop and final threshold of `_match_chord_template` on a
`NaN`-free vector: below a best correlation of `0.6` the result is no-chord
`("N", 0)`. -/
noncomputable def match_core (v : Fin 12 → ℚ) : String × ℝ :=
  if (chord_templates.foldl (matchStep v) ("N", -1)).2 < 0.6 then ("N", 0)
  else chord_templates.foldl (matchStep v) ("N", -1)

/-- `ChordDetector._match_chord_template`: the all-zero / `NaN` guard
returning `("N", 0.0)`, then the template loop. -/
noncomputable def match_chord_template (x : Fin 12 → Option ℚ) : String × ℝ :=
  if osum x = some 0 ∨ hasNaN x = true then ("N", 0)
  else match_core (fun i => (x i).getD 0)

/-- The Krumhansl-Schmuckler major profile of `_estimate_key`. -/
def major_profile : Fin 12 → ℚ :=
  ![6.35, 2.23, 3.48, 2.33, 4.38, 4.09, 2.52, 5.19, 2.39, 3.66, 2.29, 2.88]

/-- The Krumhansl-Schmuckler minor profile of `_estimate_key`. -/
def minor_profile : Fin 12 → ℚ :=
  ![6.33, 2.68, 3.52, 5.38, 2.60, 3.53, 2.54, 4.75, 3.98, 2.69, 3.34, 3.17]

/-- `np.roll(p, i)`: shift right by `i`, so entry `j` reads `p (j - i)`. -/
def roll (p : Fin 12 → ℚ) (i : Fin 12) : Fin 12 → ℚ := fun j => p (j - i)

/-- The 24 candidate keys of `_estimate_key` in loop order: the 12 rotated
major profiles, then the 12 rotated minor profiles. -/
def candidateKeys : List (String × (Fin 12 → ℚ)) :=
  ((List.finRange 12).map fun i => (noteName i ++ " major", roll major_profile i)) ++
    ((List.finRange 12).map fun i => (noteName i ++ " minor", roll minor_profile i))

/-- The loop body of `_estimate_key`: an invalid correlation is skipped
(`continue`), a valid one strictly above the best so far is taken. -/
noncomputable def keyStep (x : Fin 12 → ℚ) (acc : ℝ × String)
    (c : String × (Fin 12 → ℚ)) : ℝ × String :=
  match corrcoef x c.2 with
  | none => acc
  | some v => if acc.1 < v then (v, c.1) else acc

/-- The candidate loop of `_estimate_key` on the normalized mean chroma,
starting from `best_correlation = -1`, `best_key = 'C major'`. -/
noncomputable def key_core (x : Fin 12 → ℚ) : String :=
  (candidateKeys.foldl (keyStep x) (-1, "C major")).2

/-- `np.mean(chroma, axis=1)` with `NaN` propagation; the mean over zero
frames is `NaN`. -/
def mean_chroma (frames : List (Fin 12 → Option ℚ)) : Fin 12 → Option ℚ :=
  fun i =>
    if frames.length = 0 then none
    else ((frames.map (fun f => f i)).foldr oadd (some 0)).map
      (fun s => s / (frames.length : ℚ))

/-- The safe normalization `mean_chroma / (np.sum(mean_chroma) + 1e-8)` of
`_estimate_key` (reached only when the mean is `NaN`-free). -/
def normalizeMean (frames : List (Fin 12 → Option ℚ)) : Fin 12 → ℚ :=
  fun i => (mean_chroma frames i).getD 0 /
    (vsum (fun j => (mean_chroma frames j).getD 0) + 1 / 100000000)

/-- `ChordDetector._estimate_key`: `'Unknown'` when the mean chroma sums to
zero or contains `NaN`, else the best-correlated rotated profile. -/
noncomputable def estimate_key (frames : List (Fin 12 → Option ℚ)) : String :=
  if osum (mean_chroma frames) = some 0 ∨ hasNaN (mean_chroma frames) = true
  then "Unknown"
  else key_core (normalizeMean frames)

/-- The claim-side input of C5: a template mask normalized to sum to 1,
presented as the `NaN`-free chroma vector fed to `_match_chord_template`. -/
def normMask (v : Fin 12 → ℚ) : Fin 12 → Option ℚ :=
  fun i => some (v i / vsum v)

/-! Basic facts about the `NaN`-aware sums. -/

/-- A fold of all-zero summands is zero. -/
theorem foldr_oadd_all_zero (l : List (Option ℚ)) (h : ∀ a ∈ l, a = some 0) :
    l.foldr oadd (some 0) = some 0 := by
  induction l with
  | nil => rfl
  | cons a t ih =>
      rw [List.foldr_cons, h a (List.mem_cons_self a t),
        ih (fun b hb => h b (List.mem_cons_of_mem a hb))]
      simp [oadd]

/-- A fold with a `NaN` summand is `NaN`. -/
theorem foldr_oadd_none (l : List (Option ℚ)) (h : ∃ a ∈ l, a = none) :
    l.foldr oadd (some 0) = none := by
  induction l with
  | nil => simp at h
  | cons a t ih =>
      rw [List.foldr_cons]
      rcases h with ⟨b, hb, hbn⟩
      rcases List.mem_cons.mp hb with rfl | hbt
      · rw [hbn]
        rfl
      · rw [ih ⟨b, hbt, hbn⟩]
        cases a <;> rfl

/-- `np.sum` of an all-zero vector is zero. -/
theorem osum_all_zero (x : Fin 12 → Option ℚ) (h : ∀ i, x i = some 0) :
    osum x = some 0 := by
  apply foldr_oadd_all_zero
  intro a ha
  obtain ⟨i, hi⟩ := Set.mem_range.mp ((List.mem_ofFn _ _).mp ha)
  rw [← hi]
  exact h i

/-- A vector with a `NaN` entry registers on the `NaN` check. -/
theorem hasNaN_of_none (x : Fin 12 → Option ℚ) (i : Fin 12) (h : x i = none) :
    hasNaN x = true := by
  rw [hasNaN, List.any_eq_true]
  exact ⟨none, (List.mem_ofFn _ _).mpr (Set.mem_range.mpr ⟨i, h⟩), rfl⟩

/-- `np.sum` of an everywhere-defined vector. -/
theorem osum_some (g : Fin 12 → ℚ) :
    osum (fun i => some (g i)) = some (∑ i, g i) := by
  have hmap : ∀ l : List ℚ, (l.map some).foldr oadd (some 0) = some l.sum := by
    intro l
    induction l with
    | nil => rfl
    | cons a t ih => simp [oadd, ih]
  rw [osum, show (fun i => some (g i)) = some ∘ g from rfl, ← List.map_ofFn,
    hmap, List.sum_ofFn]

/-- An everywhere-defined vector passes the `NaN` check. -/
theorem hasNaN_some (g : Fin 12 → ℚ) :
    hasNaN (fun i => some (g i)) = false := by
  simp [hasNaN, List.any_eq_true, List.mem_ofFn]

/-! ### Theorems for C6 -/

/-- C6: on an all-zero or `NaN`-carrying chromagram, key estimation answers
`Unknown`; on an all-zero or `NaN`-carrying chroma vector, chord matching
answers no-chord with confidence `0` — the guards fire before any `NaN` can
reach the outputs. -/
theorem chord_nan_guards :
    (∀ frames : List (Fin 12 → Option ℚ),
      ((∀ f ∈ frames, ∀ i, f i = some 0) ∨ (∃ f ∈ frames, ∃ i, f i = none)) →
      estimate_key frames = "Unknown") ∧
    (∀ x : Fin 12 → Option ℚ,
      ((∀ i, x i = some 0) ∨ (∃ i, x i = none)) →
      match_chord_template x = ("N", 0)) := by
  constructor
  · intro frames h
    rw [estimate_key]
    rcases h with hz | ⟨f, hf, i, hi⟩
    · rcases frames with - | ⟨g, t⟩
      · refine if_pos (Or.inr ?_)
        exact hasNaN_of_none _ 0 rfl
      · refine if_pos (Or.inl ?_)
        apply osum_all_zero
        intro i
        rw [mean_chroma, if_neg (by simp)]
        have hzz : ((g :: t).map (fun f => f i)).foldr oadd (some 0) = some 0 := by
          apply foldr_oadd_all_zero
          intro a ha
          obtain ⟨f, hf, rfl⟩ := List.mem_map.mp ha
          exact hz f hf i
        rw [hzz]
        simp
    · refine if_pos (Or.inr ?_)
      apply hasNaN_of_none _ i
      rw [mean_chroma, if_neg]
      · have hnn : (frames.map (fun f => f i)).foldr oadd (some 0) = none :=
          foldr_oadd_none _ ⟨f i, List.mem_map_of_mem _ hf, hi⟩
        rw [hnn]
        rfl
      · rw [List.length_eq_zero]
        exact List.ne_nil_of_mem hf
  · intro x h
    rw [match_chord_template]
    rcases h with hz | ⟨i, hi⟩
    · exact if_pos (Or.inl (osum_all_zero x hz))
    · exact if_pos (Or.inr (hasNaN_of_none x i hi))

/-- C6 witness: the all-zero one-frame chromagram yields `Unknown`, and a
chroma vector with a `NaN` first component yields `("N", 0)`. -/
theorem chord_nan_guards_witness :
    estimate_key [fun _ => some 0] = "Unknown" ∧
      match_chord_template (fun i => if i = 0 then none else some (1/2)) =
        ("N", 0) := by
  constructor
  · apply chord_nan_guards.1
    left
    intro f hf i
    rw [List.mem_singleton] at hf
    subst hf
    rfl
  · apply chord_nan_guards.2
    right
    exact ⟨0, by simp⟩

/-! ### Theorems for C10 -/

/-- The correlation is invalid exactly when one side has zero variance. -/
theorem corrcoef_eq_none_iff (x y : Fin 12 → ℚ) :
    corrcoef x y = none ↔ (var12 x = 0 ∨ var12 y = 0) := by
  rw [corrcoef]
  split_ifs with h
  · exact iff_of_true rfl h
  · exact iff_of_false (by simp) h

/-- A candidate loop in which every correlation is invalid never moves off
its initial accumulator. -/
theorem foldl_keyStep_none (x : Fin 12 → ℚ) (l : List (String × (Fin 12 → ℚ)))
    (acc : ℝ × String) (h : ∀ c ∈ l, corrcoef x c.2 = none) :
    l.foldl (keyStep x) acc = acc := by
  induction l generalizing acc with
  | nil => rfl
  | cons c t ih =>
      rw [List.foldl_cons]
      have hc := h c (List.mem_cons_self c t)
      have hstep : keyStep x acc c = acc := by
        rw [keyStep, hc]
      rw [hstep]
      exact ih acc (fun d hd => h d (List.mem_cons_of_mem c hd))

/-- C10: when the mean chroma passes the zero/`NaN` guard but every Pearson
correlation against the 24 rotated key profiles is invalid, `_estimate_key`
returns its initialized default `C major`, not `Unknown`. -/
theorem estimate_key_degenerate (frames : List (Fin 12 → Option ℚ))
    (h1 : ¬(osum (mean_chroma frames) = some 0 ∨
        hasNaN (mean_chroma frames) = true))
    (h2 : ∀ c ∈ candidateKeys, corrcoef (normalizeMean frames) c.2 = none) :
    estimate_key frames = "C major" := by
  rw [estimate_key, if_neg h1, key_core, foldl_keyStep_none _ _ _ h2]

/-- The variance numerator of a constant vector vanishes. -/
theorem var12_const (c : ℚ) : var12 (fun _ => c) = 0 := by
  simp [var12, corrNum, vsum, Finset.sum_const, Finset.card_univ, nsmul_eq_mul]
  ring

/-- A perfectly uniform one-frame chromagram. -/
def uniformFrame : Fin 12 → Option ℚ := fun _ => some (1/12)

/-- C10 witness: the uniform chromagram has nonzero `NaN`-free mean chroma,
yet its normalized mean is constant, so every profile correlation is invalid
and key estimation answers `C major`. -/
theorem estimate_key_degenerate_witness :
    estimate_key [uniformFrame] = "C major" := by
  have hm : mean_chroma [uniformFrame] = fun _ => some ((1:ℚ)/12) := by
    funext i
    rw [mean_chroma, if_neg (by simp)]
    simp [uniformFrame, oadd]
  have hsum : (∑ _i : Fin 12, (1:ℚ)/12) = 1 := by
    rw [Finset.sum_const, Finset.card_univ]
    norm_num
  apply estimate_key_degenerate
  · rw [hm, osum_some, hasNaN_some, hsum]
    norm_num
  · intro c hc
    rw [corrcoef_eq_none_iff]
    left
    have hn : normalizeMean [uniformFrame] =
        fun _ => ((1:ℚ)/12) / (1 + 1/100000000) := by
      funext i
      rw [normalizeMean, hm]
      simp only [Option.getD_some]
      rw [show vsum (fun _ : Fin 12 => (1:ℚ)/12) = 1 from by rw [vsum, hsum]]
    rw [hn]
    exact var12_const _

/-! ### Theorems for C5

The template masks are 0/1 vectors; all exact arithmetic is carried out on
their integer form and transported to the `ℚ`-valued vectors by casting. -/

/-- Integer form of `np.sum` on a mask. -/
def vsumZ (m : Fin 12 → ℤ) : ℤ := ∑ i, m i

/-- Integer form of the correlation numerator. -/
def corrNumZ (a b : Fin 12 → ℤ) : ℤ :=
  12 * (∑ i, a i * b i) - vsumZ a * vsumZ b

/-- Casting commutes with the vector sum. -/
theorem vsum_castVec (m : Fin 12 → ℤ) : vsum (castVec m) = (vsumZ m : ℚ) := by
  rw [vsum, vsumZ, Int.cast_sum]
  rfl

/-- Casting commutes with the correlation numerator. -/
theorem corrNum_castVec (a b : Fin 12 → ℤ) :
    corrNum (castVec a) (castVec b) = (corrNumZ a b : ℚ) := by
  simp only [corrNum, corrNumZ, vsum_castVec, castVec, vsumZ]
  push_cast
  ring

/-- The correlation numerator is linear in a scaling of its first argument. -/
theorem corrNum_smul_left (c : ℚ) (x y : Fin 12 → ℚ) :
    corrNum (fun i => c * x i) y = c * corrNum x y := by
  simp only [corrNum, vsum, mul_assoc, ← Finset.mul_sum]
  ring

/-- The correlation numerator is symmetric. -/
theorem corrNum_comm (x y : Fin 12 → ℚ) : corrNum x y = corrNum y x := by
  simp only [corrNum, vsum]
  rw [show (∑ i, x i * y i) = ∑ i, y i * x i from
    Finset.sum_congr rfl fun i _ => mul_comm _ _]
  ring

/-- The variance numerator scales quadratically. -/
theorem var12_smul (c : ℚ) (x : Fin 12 → ℚ) :
    var12 (fun i => c * x i) = c^2 * var12 x := by
  rw [var12, corrNum_smul_left, corrNum_comm, corrNum_smul_left, corrNum_comm,
    ← var12]
  ring

/-- Every template mask sums to 3. -/
theorem tmpl_sum3 : ∀ k ∈ templateKeys, vsumZ (maskZ k.1 k.2) = 3 := by decide

/-- Every template mask has variance numerator 27. -/
theorem tmpl_var27 : ∀ k ∈ templateKeys,
    corrNumZ (maskZ k.1 k.2) (maskZ k.1 k.2) = 27 := by decide

/-- Two distinct templates overlap in at most two pitch classes, so their
correlation numerator stays below 27. -/
theorem tmpl_corr_lt : ∀ k ∈ templateKeys, ∀ j ∈ templateKeys, k ≠ j →
    corrNumZ (maskZ k.1 k.2) (maskZ j.1 j.2) < 27 := by decide

/-- The 24 template keys are pairwise distinct. -/
theorem templateKeys_nodup : templateKeys.Nodup := by decide

/-- The template association list is duplicate-free. -/
theorem chord_templates_nodup : chord_templates.Nodup :=
  templateKeys_nodup.map fun _ _ hab => congrArg Prod.fst hab

/-- The correlation of a down-scaled template mask against any template,
evaluated exactly: the denominator `sqrt 3 * sqrt 27` is `9`, and the value
is the integer correlation numerator over 27. -/
theorem corr_smul_mask (k j : Fin 12 × String) (hk : k ∈ templateKeys)
    (hj : j ∈ templateKeys) :
    (corrcoef (fun i => (1/3 : ℚ) * castVec (maskZ k.1 k.2) i)
      (castVec (maskZ j.1 j.2))).getD 0 =
      ((corrNumZ (maskZ k.1 k.2) (maskZ j.1 j.2) : ℤ) : ℝ) / 27 := by
  have hvk : var12 (castVec (maskZ k.1 k.2)) = 27 := by
    rw [var12, corrNum_castVec, tmpl_var27 k hk]
    norm_num
  have hvj : var12 (castVec (maskZ j.1 j.2)) = 27 := by
    rw [var12, corrNum_castVec, tmpl_var27 j hj]
    norm_num
  have hvar : var12 (fun i => (1/3 : ℚ) * castVec (maskZ k.1 k.2) i) = 3 := by
    rw [var12_smul, hvk]
    norm_num
  have hnum : corrNum (fun i => (1/3 : ℚ) * castVec (maskZ k.1 k.2) i)
      (castVec (maskZ j.1 j.2)) =
      (1/3 : ℚ) * (corrNumZ (maskZ k.1 k.2) (maskZ j.1 j.2) : ℚ) := by
    rw [corrNum_smul_left, corrNum_castVec]
  rw [corrcoef, if_neg (by rw [hvar, hvj]; norm_num), Option.getD_some,
    hnum, hvar, hvj]
  have h9 : Real.sqrt ((3:ℚ) : ℝ) * Real.sqrt ((27:ℚ) : ℝ) = 9 := by
    rw [show ((3:ℚ) : ℝ) = 3 by norm_num, show ((27:ℚ) : ℝ) = 27 by norm_num,
      ← Real.sqrt_mul (by norm_num : (0:ℝ) ≤ 3), show (3:ℝ) * 27 = 9^2 by norm_num]
    exact Real.sqrt_sq (by norm_num)
  rw [h9]
  push_cast
  ring

/-- The loop body written out. -/
theorem matchStep_eq (v : Fin 12 → ℚ) (acc : String × ℝ)
    (t : (Fin 12 × String) × (Fin 12 → ℚ)) :
    matchStep v acc t =
      if acc.2 < (corrcoef v t.2).getD 0 then
        (get_chord_name t.1.1 t.1.2, (corrcoef v t.2).getD 0)
      else acc := rfl

/-- A matching loop whose remaining correlations all stay below 1 keeps the
best correlation below 1. -/
theorem foldl_matchStep_lt (v : Fin 12 → ℚ)
    (l : List ((Fin 12 × String) × (Fin 12 → ℚ))) (acc : String × ℝ)
    (h : ∀ t ∈ l, (corrcoef v t.2).getD 0 < 1) (ha : acc.2 < 1) :
    (l.foldl (matchStep v) acc).2 < 1 := by
  induction l generalizing acc with
  | nil => exact ha
  | cons t rest ih =>
      rw [List.foldl_cons]
      refine ih _ (fun u hu => h u (List.mem_cons_of_mem t hu)) ?_
      rw [matchStep_eq]
      split_ifs
      · exact h t (List.mem_cons_self t rest)
      · exact ha

/-- A matching loop whose remaining correlations all stay below 1 never
moves off an accumulator already at 1. -/
theorem foldl_matchStep_stay (v : Fin 12 → ℚ)
    (l : List ((Fin 12 × String) × (Fin 12 → ℚ))) (acc : String × ℝ)
    (h : ∀ t ∈ l, (corrcoef v t.2).getD 0 < 1) (ha : acc.2 = 1) :
    l.foldl (matchStep v) acc = acc := by
  induction l with
  | nil => rfl
  | cons t rest ih =>
      rw [List.foldl_cons]
      have hstep : matchStep v acc t = acc := by
        rw [matchStep_eq, if_neg]
        rw [ha]
        exact not_lt.mpr (h t (List.mem_cons_self t rest)).le
      rw [hstep]
      exact ih (fun u hu => h u (List.mem_cons_of_mem t hu))

/-- C5: feeding chord matching a template's own mask normalized to sum 1
returns exactly that template's chord label (root note name, `m` suffix for
minor) with a winning correlation of at least `0.6` (in fact exactly 1). -/
theorem match_chord_template_self :
    ∀ t ∈ chord_templates,
      (match_chord_template (normMask t.2)).1 = get_chord_name t.1.1 t.1.2 ∧
        (0.6 : ℝ) ≤ (match_chord_template (normMask t.2)).2 := by
  intro t ht
  obtain ⟨k, hk, rfl⟩ := List.mem_map.mp ht
  have hsum : vsum (castVec (maskZ k.1 k.2)) = 3 := by
    rw [vsum_castVec, tmpl_sum3 k hk]
    norm_num
  have hnm : normMask (castVec (maskZ k.1 k.2)) =
      fun i => some (castVec (maskZ k.1 k.2) i / 3) := by
    funext i
    show some (castVec (maskZ k.1 k.2) i / vsum (castVec (maskZ k.1 k.2))) = _
    rw [hsum]
  have hsum13 : (∑ i, castVec (maskZ k.1 k.2) i / 3) = 1 := by
    rw [← Finset.sum_div,
      show (∑ i, castVec (maskZ k.1 k.2) i) = vsum (castVec (maskZ k.1 k.2))
        from rfl, hsum]
    norm_num
  have hguard : ¬(osum (normMask (castVec (maskZ k.1 k.2))) = some 0 ∨
      hasNaN (normMask (castVec (maskZ k.1 k.2))) = true) := by
    rw [hnm, osum_some, hasNaN_some, hsum13]
    simp
  rw [match_chord_template, if_neg hguard]
  have hvec : (fun i => ((normMask (castVec (maskZ k.1 k.2))) i).getD 0) =
      fun i => (1/3 : ℚ) * castVec (maskZ k.1 k.2) i := by
    funext i
    simp only [hnm, Option.getD_some]
    ring
  rw [hvec]
  have hval : ∀ t' ∈ chord_templates,
      t' ≠ (k, castVec (maskZ k.1 k.2)) →
      (corrcoef (fun i => (1/3 : ℚ) * castVec (maskZ k.1 k.2) i) t'.2).getD 0
        < 1 := by
    intro t' ht' hne
    obtain ⟨j, hj, rfl⟩ := List.mem_map.mp ht'
    have hjk : j ≠ k := by
      intro h
      apply hne
      rw [h]
    rw [corr_smul_mask k j hk hj,
      div_lt_one (by norm_num : (0:ℝ) < 27)]
    exact_mod_cast tmpl_corr_lt k hk j hj (fun h => hjk h.symm)
  have hself : (corrcoef (fun i => (1/3 : ℚ) * castVec (maskZ k.1 k.2) i)
      (castVec (maskZ k.1 k.2))).getD 0 = 1 := by
    rw [corr_smul_mask k k hk hk, tmpl_var27 k hk]
    norm_num
  obtain ⟨l₁, l₂, hd⟩ := List.append_of_mem ht
  have hnd : (l₁ ++ (k, castVec (maskZ k.1 k.2)) :: l₂).Nodup := by
    rw [← hd]
    exact chord_templates_nodup
  obtain ⟨-, hcons, hdisj⟩ := List.nodup_append.mp hnd
  have htk1 : (k, castVec (maskZ k.1 k.2)) ∉ l₁ :=
    fun hmem => hdisj hmem (List.mem_cons_self _ _)
  have htk2 : (k, castVec (maskZ k.1 k.2)) ∉ l₂ := (List.nodup_cons.mp hcons).1
  have hmem1 : ∀ u ∈ l₁, u ∈ chord_templates := by
    intro u hu
    rw [hd]
    exact List.mem_append_left _ hu
  have hmem2 : ∀ u ∈ l₂, u ∈ chord_templates := by
    intro u hu
    rw [hd]
    exact List.mem_append_right _ (List.mem_cons_of_mem _ hu)
  have hr : chord_templates.foldl
      (matchStep (fun i => (1/3 : ℚ) * castVec (maskZ k.1 k.2) i)) ("N", -1) =
      (get_chord_name k.1 k.2, 1) := by
    rw [hd, List.foldl_append, List.foldl_cons]
    have hacc1 : (l₁.foldl
        (matchStep (fun i => (1/3 : ℚ) * castVec (maskZ k.1 k.2) i))
        ("N", -1)).2 < 1 :=
      foldl_matchStep_lt _ l₁ _
        (fun u hu => hval u (hmem1 u hu) (fun he => htk1 (he ▸ hu)))
        (by norm_num)
    have hstep : matchStep (fun i => (1/3 : ℚ) * castVec (maskZ k.1 k.2) i)
        (l₁.foldl (matchStep (fun i => (1/3 : ℚ) * castVec (maskZ k.1 k.2) i))
          ("N", -1))
        ((k, castVec (maskZ k.1 k.2))) = (get_chord_name k.1 k.2, 1) := by
      rw [matchStep_eq]
      dsimp only
      rw [hself, if_pos hacc1]
    rw [hstep]
    exact foldl_matchStep_stay _ l₂ _
      (fun u hu => hval u (hmem2 u hu) (fun he => htk2 (he ▸ hu))) rfl
  unfold match_core
  rw [hr]
  rw [if_neg (by norm_num : ¬((get_chord_name k.1 k.2, (1:ℝ)).2 < 0.6))]
  exact ⟨rfl, by norm_num⟩

/-- C5 witness: the C-major template mask, normalized, is matched back to
the label `C` with correlation at least `0.6`. -/
theorem match_chord_template_self_witness :
    (match_chord_template (normMask (castVec (maskZ 0 "major")))).1 = "C" ∧
      (0.6 : ℝ) ≤ (match_chord_template (normMask (castVec (maskZ 0 "major")))).2 := by
  have hmem : ((0, "major"), castVec (maskZ 0 "major")) ∈ chord_templates :=
    List.mem_map.mpr ⟨(0, "major"), by decide, rfl⟩
  have h := match_chord_template_self ((0, "major"), castVec (maskZ 0 "major")) hmem
  exact ⟨h.1.trans (by decide), h.2⟩
